import Mathlib

/-!
Verification of the eskip tokenizer and the filter chain.

This file is a shallow embedding, in Lean 4, of the route-expression
tokenizer found in `eskip/lexer.go` and of the filter-chain composition
found in `filters/chain/chain.go` of the skipper repository, together
with theorems settling the behavioural claims about them.

The tokenizer is driven by a single composite regular expression built by
`newLexer`.  The Go code delegates the matching itself to the Go `regexp`
package (RE2), whose observable semantics for anchored matching are
leftmost-first: the returned match is the one a Perl-style backtracking
search would find first, with greedy quantifiers preferring longer
iterations and alternations preferring earlier branches, and with a
repetition never accepting an empty iteration (the empty-width loop
protection shared by RE2 and Perl).  We embed those semantics with a
small prioritised matcher `reMatch` that returns, in backtracking
priority order, the list of all suffixes at which a pattern can stop;
the head of the list is the match the Go engine commits to.
-/

namespace SkipperEskip

/-- Abstract syntax of the regular-expression fragments used by
`eskip/lexer.go` (after Go string-literal unescaping): character
predicates, concatenation, alternation, greedy star and the `$`
end-of-text anchor.  `?` and `+` are derived forms. -/
inductive Regex where
  | eps
  | chr (p : Char → Bool)
  | cat (a b : Regex)
  | alt (a b : Regex)
  | star (a : Regex)
  | endA

/-- One greedy-star expansion step with explicit fuel.  In priority order:
first every continuation obtained by matching the body once (only
iterations that consume at least one character are kept — the empty-width
loop protection of RE2/Perl) followed by further iterations, and last the
option of stopping here.  Fuel `n ≥ s.length` is enough for full
expansion because every kept iteration strictly shrinks the suffix. -/
def starIter (f : List Char → List (List Char)) : Nat → List Char → List (List Char)
  | 0, s => [s]
  | n + 1, s =>
      (((f s).filter (fun t => t.length < s.length)).flatMap (starIter f n)) ++ [s]

/-- Prioritised matcher: `reMatch r s` is the list of suffixes of `s`
remaining after a match of `r` at the start of `s`, in backtracking
priority order (earlier = preferred by the leftmost-first engine). -/
def reMatch : Regex → List Char → List (List Char)
  | .eps, s => [s]
  | .endA, s => if s.isEmpty then [s] else []
  | .chr p, s =>
      match s with
      | [] => []
      | c :: t => if p c then [t] else []
  | .cat a b, s => (reMatch a s).flatMap (reMatch b)
  | .alt a b, s => reMatch a s ++ reMatch b s
  | .star a, s => starIter (reMatch a) s.length s

/-- A single literal character (a one-character pattern). -/
def cls (c : Char) : Regex := .chr (fun d => d == c)

/-- A literal character sequence. -/
def lit : List Char → Regex
  | [] => .eps
  | c :: cs => .cat (cls c) (lit cs)

/-- Greedy `?` (prefer consuming). -/
def opt (r : Regex) : Regex := .alt r .eps

/-- Greedy `+` as `r r*`. -/
def plus (r : Regex) : Regex := .cat r (.star r)

/-- Character class `[0-9]`. -/
def isDigitB (c : Char) : Bool := '0' ≤ c && c ≤ '9'

/-- The RE2 class `\s`, that is `[\t\n\f\r ]`. -/
def isWsB (c : Char) : Bool :=
  c == ' ' || c == '\t' || c == '\n' || c == '\x0c' || c == '\r'

/-- The RE2 class `\w`, that is `[0-9A-Za-z_]`. -/
def isWordB (c : Char) : Bool :=
  isDigitB c || ('a' ≤ c && c ≤ 'z') || ('A' ≤ c && c ≤ 'Z') || c == '_'

/-- The RE2 class `.` matching any character except newline. -/
def isDotB (c : Char) : Bool := !(c == '\n')

/-- Token kinds of the eskip language.  In `lexer.go` these are the yacc
token constants `and, arrow, closeparen, colon, comma, number, openparen,
regexpliteral, semicolon, shunt, stringliteral, symbol` (integer values
generated outside `src/`); the lexer only distinguishes them, so we use an
inductive type, with `LexResult.eof` standing for the `-1` end-of-stream
return value of `Lex`. -/
inductive TokenKind where
  | and | arrow | closeparen | colon | comma | number | openparen
  | regexpliteral | semicolon | shunt | stringliteral | symbol
deriving DecidableEq, Repr

/-- Mirror of the `tokenRx` struct of `lexer.go` (the compiled `rx` of a
fragment is carried here as a `Regex`; `matchIndex` is computed by
`assignMatchIndexes` below, as in `newLexer`). -/
structure TokenRx where
  token : TokenKind
  rx : Regex
  captureGroups : Nat

/-- Pattern `[&][&]` of token `and`. -/
def andRx : Regex := .cat (cls '&') (cls '&')

/-- Pattern `->` of token `arrow`. -/
def arrowRx : Regex := .cat (cls '-') (cls '>')

/-- Pattern `\)` of token `closeparen`. -/
def closeparenRx : Regex := cls ')'

/-- Pattern `:` of token `colon`. -/
def colonRx : Regex := cls ':'

/-- Pattern `,` of token `comma`. -/
def commaRx : Regex := cls ','

/-- Pattern `[0-9]*[.]?[0-9]+` of token `number`. -/
def numberRx : Regex :=
  .cat (.star (.chr isDigitB)) (.cat (opt (cls '.')) (plus (.chr isDigitB)))

/-- Pattern `\(` of token `openparen`. -/
def openparenRx : Regex := cls '('

/-- The Go source string `"/(\\\\|\\/|[^/])*/"`, i.e. the pattern
`/(\\|\/|[^/])*/` (token `regexpliteral`) - a slash, then any number of
(escaped backslash as the single character `\`, escaped slash as the
single character `/`, or any non-slash character), then a slash.  One
internal capture group. -/
def regexpliteralRx : Regex :=
  .cat (cls '/')
    (.cat (.star (.alt (cls '\\') (.alt (cls '/') (.chr (fun c => !(c == '/'))))))
      (cls '/'))

/-- Pattern `;` of token `semicolon`. -/
def semicolonRx : Regex := cls ';'

/-- Pattern `<shunt>` of token `shunt`. -/
def shuntRx : Regex := lit ("<shunt>".toList)

/-- The Go source string `"\"(\\\\|\\\"|[^\"])*\""`, i.e. the pattern
`"(\\|\"|[^"])*"` (token `stringliteral`, double-quoted variant).  One
internal capture group. -/
def dquoteRx : Regex :=
  .cat (cls '"')
    (.cat (.star (.alt (cls '\\') (.alt (cls '"') (.chr (fun c => !(c == '"'))))))
      (cls '"'))

/-- The Go source string `` "`(\\\\|\\`|[^\"])*`" ``, i.e. the pattern
`` `(\\|\`|[^"])*` `` (token `stringliteral`, backtick variant; note the
the negated class of the body really excludes `"`, not the backtick, as in the
source).  One internal capture group. -/
def btickRx : Regex :=
  .cat (cls '`')
    (.cat (.star (.alt (cls '\\') (.alt (cls '`') (.chr (fun c => !(c == '"'))))))
      (cls '`'))

/-- Pattern `[a-zA-Z_]\w*` of token `symbol`. -/
def symbolRx : Regex :=
  .cat (.chr (fun c => ('a' ≤ c && c ≤ 'z') || ('A' ≤ c && c ≤ 'Z') || c == '_'))
    (.star (.chr isWordB))

/-- Pattern `//.*\r?\n`: a line comment terminated by a newline (with optional
carriage return), part of the skip sub-pattern of `rxFmt`. -/
def cmtNLRx : Regex :=
  .cat (cls '/') (.cat (cls '/')
    (.cat (.star (.chr isDotB)) (.cat (opt (cls '\r')) (cls '\n'))))

/-- Pattern `//.*$`: a line comment terminated by the end of the input, part of
the skip sub-pattern of `rxFmt`. -/
def cmtEOFRx : Regex :=
  .cat (cls '/') (.cat (cls '/') (.cat (.star (.chr isDotB)) .endA))

/-- The skip wrapper `(\s*|//.*\r?\n|//.*$)*` of `rxFmt` in `newLexer`:
zero or more runs of whitespace or single-line comments. -/
def skipRx : Regex :=
  .star (.alt (.star (.chr isWsB)) (.alt cmtNLRx cmtEOFRx))

/-- The token table of `newLexer`, in source order, with the per-entry
declared `captureGroups` count. -/
def tokenRxs : List TokenRx :=
  [ ⟨.and, andRx, 0⟩,
    ⟨.arrow, arrowRx, 0⟩,
    ⟨.closeparen, closeparenRx, 0⟩,
    ⟨.colon, colonRx, 0⟩,
    ⟨.comma, commaRx, 0⟩,
    ⟨.number, numberRx, 0⟩,
    ⟨.openparen, openparenRx, 0⟩,
    ⟨.regexpliteral, regexpliteralRx, 1⟩,
    ⟨.semicolon, semicolonRx, 0⟩,
    ⟨.shunt, shuntRx, 0⟩,
    ⟨.stringliteral, dquoteRx, 1⟩,
    ⟨.stringliteral, btickRx, 1⟩,
    ⟨.symbol, symbolRx, 0⟩ ]

/-- Value of the `initialCaptureGroups` constant of `newLexer`. -/
def initialCaptureGroups : Nat := 3

/-- The index-assignment loop of `newLexer`, that is
`trx.matchIndex = i + captureGroups; captureGroups += trx.captureGroups`,
started with `i = 0` and `captureGroups = initialCaptureGroups`. -/
def assignMatchIndexes : List TokenRx → Nat → Nat → List Nat
  | [], _, _ => []
  | trx :: rest, i, cg => (i + cg) :: assignMatchIndexes rest (i + 1) (cg + trx.captureGroups)

/-- The `matchIndex` values `newLexer` assigns to the token table, in
table order. -/
def matchIndexes : List Nat := assignMatchIndexes tokenRxs 0 initialCaptureGroups

/-- Sum of the `captureGroups` fields of the first `i` table entries. -/
def sumEarlierCGs (i : Nat) : Nat :=
  (((tokenRxs.take i).map (fun t => t.captureGroups)).sum)

/-- First-success search in priority order (the engine commits to the
first alternative whose whole continuation succeeds). -/
def pickFirst : List α → (α → Option β) → Option β
  | [], _ => none
  | a :: l, f =>
      match f a with
      | some b => some b
      | none => pickFirst l f

/-- The joint effect of `rx.FindStringSubmatch` on the composite pattern
`^(skip)*(t₀|…|t₁₂)(skip)*` and of `getToken`: on success it yields the
length of `m[0]`, the token kind of the unique token fragment whose
top-level capture group participated in the match (`getToken` returns the
first table entry with a non-empty group; exactly the winning alternative
has a non-empty group, every token match being non-empty), and that
participating group.  The nesting order mirrors the backtracking priority of the
composite pattern: leading-skip extent, then the alternation in table
order, then the own choices of the fragment, then the trailing skip. -/
def findMatch (s : List Char) : Option (Nat × TokenKind × List Char) :=
  pickFirst (reMatch skipRx s) (fun s1 =>
    pickFirst tokenRxs (fun t =>
      pickFirst (reMatch t.rx s1) (fun s2 =>
        pickFirst (reMatch skipRx s2) (fun s3 =>
          some (s.length - s3.length, t.token, s1.take (s1.length - s2.length))))))

/-- The mutable lexer state of `eskipLex` (the immutable `tokenRxs`/`rx`
fields are the global table above; `routes`/`filters` belong to the
parser, not the lexer, and are omitted). -/
structure EskipLex where
  code : List Char
  lastToken : List Char
  lastRaw : List Char
  lastPosition : Nat
  err : Option String
deriving DecidableEq, Repr

/-- Mirror of `newLexer`: fresh state over the input, with Go zero values
for the remaining fields. -/
def newLexer (code : List Char) : EskipLex :=
  { code := code, lastToken := [], lastRaw := [], lastPosition := 0, err := none }

/-- Method `Error` of `*eskipLex`: records
`"parse failed after token %s, position %d: %s"` over the last emitted
token text and the cumulative position, overwriting any previous error. -/
def EskipLex.Error (l : EskipLex) (msg : String) : EskipLex :=
  { l with err := some ("parse failed after token " ++ String.mk l.lastToken ++
      ", position " ++ toString l.lastPosition ++ ": " ++ msg) }

/-- Method `matchToken` of `*eskipLex`: applies the composite pattern to the
remaining input.  On failure it clears `lastRaw` and leaves `code`
untouched; on success it records `m[0]` in `lastRaw` and drops it from
`code`.  The returned value carries what `getToken` extracts from the
submatch slice. -/
def EskipLex.matchToken (l : EskipLex) : Option (TokenKind × List Char) × EskipLex :=
  match findMatch l.code with
  | none => (none, { l with lastRaw := [] })
  | some (n, tk, txt) =>
      (some (tk, txt), { l with lastRaw := l.code.take n, code := l.code.drop n })

/-- Result of one `Lex` call: `eof` is the end-of-stream return value `-1`,
and `tok t s` is a token return with `lval.token = s`. -/
inductive LexResult where
  | eof
  | tok (t : TokenKind) (s : List Char)
deriving DecidableEq, Repr

/-- Method `Lex` of `*eskipLex`: end-of-stream on empty input; otherwise step
`lastPosition` by the previous raw match, match a token, report
`"invalid token"` through `Error` on failure, and record/emit the matched
token text on success. -/
def EskipLex.Lex (l : EskipLex) : LexResult × EskipLex :=
  if l.code.length = 0 then (.eof, l)
  else
    let l1 : EskipLex := { l with lastPosition := l.lastPosition + l.lastRaw.length }
    match l1.matchToken with
    | (none, l2) => (.eof, l2.Error ("invalid token"))
    | (some (tk, s), l2) => (.tok tk s, { l2 with lastToken := s })

/-- Drive `Lex` to end-of-stream, collecting the emitted tokens; fuel
bounds the number of calls (input length + 1 always suffices since every
token consumes at least one character). -/
def lexAll : Nat → EskipLex → List (TokenKind × List Char) × EskipLex
  | 0, l => ([], l)
  | n + 1, l =>
      match l.Lex with
      | (.eof, l') => ([], l')
      | (.tok t s, l') =>
          let r := lexAll n l'
          ((t, s) :: r.1, r.2)

/-- Scan a whole string from a fresh lexer. -/
def tokenize (s : String) : List (TokenKind × List Char) × EskipLex :=
  lexAll (s.length + 1) (newLexer s.toList)

/-- Function `unescape(s, chars)` from `lexer.go`: a single left-to-right pass with a
pending-escape flag (Go builds the pieces in a slice and joins them; we
build the result list directly). -/
def unescapeGo (chars : List Char) : List Char → Bool → List Char
  | [], _ => []
  | c :: rest, escaped =>
      if escaped && chars.contains c then c :: unescapeGo chars rest false
      else if escaped then '\\' :: c :: unescapeGo chars rest false
      else if c = '\\' then unescapeGo chars rest true
      else c :: unescapeGo chars rest false

/-- Wrapper `unescape` with the argument order of the source. -/
def unescape (s chars : List Char) : List Char := unescapeGo chars s false

/-- Numeric value of a digit run (most significant first). -/
def digitsVal (ds : List Char) : Nat :=
  ds.foldl (fun a c => 10 * a + (c.toNat - '0'.toNat)) 0

/-- Function `convertNumber`: the source calls `strconv.ParseFloat(s, 64)` and
discards the error (the number pattern guarantees the text is a valid
decimal).  We model the conversion by the exact decimal value over `ℚ`;
for the decimal texts considered in the claims (`12.5`, `.5`, `5`) the
binary64 value returned by `ParseFloat` is exactly this rational, since
they are representable in binary64. -/
def convertNumber (s : List Char) : ℚ :=
  let ip := s.takeWhile isDigitB
  let rest := s.dropWhile isDigitB
  let frac := if rest.head? = some '.' then rest.drop 1 else rest
  (digitsVal ip : ℚ) +
    frac.foldr (fun c (q : ℚ) => (((c.toNat - '0'.toNat : ℕ) : ℚ) + q) / 10) 0

/-- Function `convertString`: backtick literals are delimiter-stripped verbatim;
double-quoted literals are delimiter-stripped and unescaped with the
allowed set of backslash and double quote (the Go slice `s[1:len(s)-1]`
is `drop 1` followed by `dropLast`). -/
def convertString (s : List Char) : List Char :=
  if s.head? = some '`' then (s.drop 1).dropLast
  else unescape ((s.drop 1).dropLast) ['\\', '"']

/-- Function `convertRegexp`: strip the delimiting slashes and unescape with the
allowed set `{/}`. -/
def convertRegexp (s : List Char) : List Char :=
  unescape ((s.drop 1).dropLast) ['/']

/-- Syntactic check that every match of a pattern consumes at least one
character (conservative: a concatenation consumes if either part does, an
alternation only if both branches do; repetitions and anchors may be
empty).  All thirteen token fragments of the table satisfy it. -/
def consumesOne : Regex → Bool
  | .eps => false
  | .endA => false
  | .chr _ => true
  | .cat a b => consumesOne a || consumesOne b
  | .alt a b => consumesOne a && consumesOne b
  | .star _ => false

/-- Lexer states reachable from a fresh lexer over `input` by repeated
`Lex` calls (the pull protocol of the parser). -/
inductive Reach (input : List Char) : EskipLex → Prop where
  | init : Reach input (newLexer input)
  | step {l : EskipLex} : Reach input l → Reach input l.Lex.2

end SkipperEskip

namespace SkipperChain

/-!
The filter chain of `filters/chain/chain.go`.

The chained sub-filters are modelled by what the claim depends on: whether
the request-phase hook of each sub-filter causes the response to be served
(`Bool` per sub-filter).  The `FilterContext` is modelled by its served
flag and by the state-bag entry under the key `"fashionStoreExitIndex"`
(an optional index).  The `Request`/`Response` methods additionally return
the list of positions of the sub-filters whose corresponding hook was
invoked, which is what the claim quantifies over.
-/

/-- The request-relevant part of a `filters.FilterContext`: the served
flag and the state-bag entry under `"fashionStoreExitIndex"`. -/
structure FilterCtx where
  served : Bool
  bag : Option Nat
deriving DecidableEq, Repr

/-- The loop body of `(chain filter).Request`, with the running position
`i` made explicit: invoke the request hook of each sub-filter in order;
as soon as the context is served, record the current position in the
state bag and stop.  Also returns the positions whose request hook ran. -/
def chainRequestGo : List Bool → Nat → FilterCtx → FilterCtx × List Nat
  | [], _, ctx => (ctx, [])
  | f :: fs, i, ctx =>
      let ctx1 : FilterCtx := { ctx with served := ctx.served || f }
      if ctx1.served then ({ ctx1 with bag := some i }, [i])
      else
        let r := chainRequestGo fs (i + 1) ctx1
        (r.1, i :: r.2)

/-- Mirror of `(chain filter).Request` over a fresh position counter. -/
def chainRequest (fs : List Bool) (ctx : FilterCtx) : FilterCtx × List Nat :=
  chainRequestGo fs 0 ctx

/-- Mirror of `(chain filter).Response`: if an exit index was recorded,
truncate the sub-filter list to `chain.filters[:index]` before running
the response hooks of what remains; returns the positions whose response
hook ran. -/
def chainResponse (fs : List Bool) (ctx : FilterCtx) : List Nat :=
  match ctx.bag with
  | some i => List.range (fs.take i).length
  | none => List.range fs.length

end SkipperChain

namespace SkipperEskip

/-! ## General lemmas about the matcher -/

/-- Inversion for the first-success search: a hit comes from some list
element. -/
theorem pickFirst_eq_some {α β : Type} {l : List α} {f : α → Option β} {b : β}
    (h : pickFirst l f = some b) : ∃ a ∈ l, f a = some b := by
  induction l with
  | nil => simp [pickFirst] at h
  | cons a l ih =>
    rw [pickFirst] at h
    cases hfa : f a with
    | some c =>
        rw [hfa] at h
        exact ⟨a, List.mem_cons_self a l, by rw [hfa]; exact h⟩
    | none =>
        rw [hfa] at h
        obtain ⟨x, hx, hfx⟩ := ih h
        exact ⟨x, List.mem_cons_of_mem a hx, hfx⟩

/-- Star expansion never grows the suffix. -/
theorem starIter_length_le {f : List Char → List (List Char)} :
    ∀ {n : Nat} {s t : List Char}, t ∈ starIter f n s → t.length ≤ s.length := by
  intro n
  induction n with
  | zero =>
      intro s t ht
      simp only [starIter, List.mem_singleton] at ht
      exact ht ▸ Nat.le_refl _
  | succ n ih =>
      intro s t ht
      simp only [starIter, List.mem_append, List.mem_flatMap, List.mem_filter,
        List.mem_singleton, decide_eq_true_eq] at ht
      rcases ht with ⟨u, ⟨_, hlt⟩, htu⟩ | rfl
      · exact Nat.le_trans (ih htu) (Nat.le_of_lt hlt)
      · exact Nat.le_refl _

/-- Matching never grows the suffix: every result of `reMatch` is at most
as long as the input. -/
theorem reMatch_length_le : ∀ (r : Regex) {s t : List Char},
    t ∈ reMatch r s → t.length ≤ s.length := by
  intro r
  induction r with
  | eps =>
      intro s t ht
      simp only [reMatch, List.mem_singleton] at ht
      exact ht ▸ Nat.le_refl _
  | endA =>
      intro s t ht
      by_cases hs : s.isEmpty <;> simp only [reMatch, hs] at ht
      · simp only [if_true, List.mem_singleton] at ht
        exact ht ▸ Nat.le_refl _
      · simp at ht
  | chr p =>
      intro s t ht
      cases s with
      | nil => simp [reMatch] at ht
      | cons c u =>
          by_cases hp : p c <;> simp only [reMatch, hp] at ht
          · simp only [if_true, List.mem_singleton] at ht
            exact ht ▸ Nat.le_succ _
          · simp at ht
  | cat a b iha ihb =>
      intro s t ht
      simp only [reMatch, List.mem_flatMap] at ht
      obtain ⟨u, hu, htu⟩ := ht
      exact Nat.le_trans (ihb htu) (iha hu)
  | alt a b iha ihb =>
      intro s t ht
      simp only [reMatch, List.mem_append] at ht
      rcases ht with h | h
      · exact iha h
      · exact ihb h
  | star a iha =>
      intro s t ht
      exact starIter_length_le ht

/-- Soundness of `consumesOne`: a pattern it approves consumes at least
one character on every match. -/
theorem consumesOne_sound : ∀ (r : Regex) {s t : List Char},
    consumesOne r = true → t ∈ reMatch r s → t.length < s.length := by
  intro r
  induction r with
  | eps => intro s t hc _; simp [consumesOne] at hc
  | endA => intro s t hc _; simp [consumesOne] at hc
  | star a _ => intro s t hc _; simp [consumesOne] at hc
  | chr p =>
      intro s t _ ht
      cases s with
      | nil => simp [reMatch] at ht
      | cons c u =>
          by_cases hp : p c <;> simp only [reMatch, hp] at ht
          · simp only [if_true, List.mem_singleton] at ht
            exact ht ▸ Nat.lt_succ_self _
          · simp at ht
  | cat a b iha ihb =>
      intro s t hc ht
      simp only [consumesOne, Bool.or_eq_true] at hc
      simp only [reMatch, List.mem_flatMap] at ht
      obtain ⟨u, hu, htu⟩ := ht
      rcases hc with hc | hc
      · exact Nat.lt_of_le_of_lt (reMatch_length_le b htu) (iha hc hu)
      · exact Nat.lt_of_lt_of_le (ihb hc htu) (reMatch_length_le a hu)
  | alt a b iha ihb =>
      intro s t hc ht
      simp only [consumesOne, Bool.and_eq_true] at hc
      simp only [reMatch, List.mem_append] at ht
      rcases ht with h | h
      · exact iha hc.1 h
      · exact ihb hc.2 h

/-- Every fragment of the token table consumes at least one character
(the invariant the spec asks the table to preserve). -/
theorem tokenRxs_consume : ∀ t ∈ tokenRxs, consumesOne t.rx = true := by decide

/-- On success, the composite match consumes at least one and at most all
of the remaining characters. -/
theorem findMatch_bounds {s : List Char} {n : Nat} {k : TokenKind} {txt : List Char}
    (h : findMatch s = some (n, k, txt)) : 1 ≤ n ∧ n ≤ s.length := by
  unfold findMatch at h
  obtain ⟨s1, hs1, h⟩ := pickFirst_eq_some h
  obtain ⟨trx, htrx, h⟩ := pickFirst_eq_some h
  obtain ⟨s2, hs2, h⟩ := pickFirst_eq_some h
  obtain ⟨s3, hs3, h⟩ := pickFirst_eq_some h
  simp only [Option.some.injEq, Prod.mk.injEq] at h
  have h1 : s1.length ≤ s.length := reMatch_length_le _ hs1
  have h2 : s2.length < s1.length :=
    consumesOne_sound _ (tokenRxs_consume trx htrx) hs2
  have h3 : s3.length ≤ s2.length := reMatch_length_le _ hs3
  have hn : s.length - s3.length = n := h.1
  omega

/-! ## Characterisation of one `Lex` call -/

/-- The three possible outcomes of a `Lex` call, with the successor state
spelled out: empty input (end-of-stream, state untouched), match failure
(end-of-stream, position stepped, raw match cleared, error recorded), or
a token (position stepped, raw match and code advanced by the consumed
length, token text recorded and returned). -/
theorem Lex_char (l : EskipLex) :
    (l.code = [] ∧ l.Lex = (.eof, l)) ∨
    (l.code ≠ [] ∧ findMatch l.code = none ∧
      l.Lex = (.eof,
        ({ l with lastPosition := l.lastPosition + l.lastRaw.length,
                  lastRaw := [] } : EskipLex).Error ("invalid token"))) ∨
    (∃ n tk txt, l.code ≠ [] ∧ findMatch l.code = some (n, tk, txt) ∧
      l.Lex = (.tok tk txt,
        { l with lastPosition := l.lastPosition + l.lastRaw.length,
                 lastRaw := l.code.take n,
                 code := l.code.drop n,
                 lastToken := txt })) := by
  by_cases h0 : l.code = []
  · left
    refine ⟨h0, ?_⟩
    simp [EskipLex.Lex, h0]
  · have hlen : ¬ l.code.length = 0 := by
      simpa [List.length_eq_zero] using h0
    cases hm : findMatch l.code with
    | none =>
        right; left
        refine ⟨h0, rfl, ?_⟩
        simp [EskipLex.Lex, EskipLex.matchToken, hlen, hm]
    | some v =>
        obtain ⟨n, tk, txt⟩ := v
        right; right
        refine ⟨n, tk, txt, h0, rfl, ?_⟩
        simp [EskipLex.Lex, EskipLex.matchToken, hlen, hm]

/-- The positional bookkeeping of `Lex` preserves the total
`lastPosition + |lastRaw| + |code|`. -/
theorem Lex_sum (l : EskipLex) :
    l.Lex.2.lastPosition + l.Lex.2.lastRaw.length + l.Lex.2.code.length
      = l.lastPosition + l.lastRaw.length + l.code.length := by
  rcases Lex_char l with ⟨_, hL⟩ | ⟨_, hm, hL⟩ | ⟨n, tk, txt, _, hm, hL⟩
  · rw [hL]
  · rw [hL]; simp [EskipLex.Error]
  · rw [hL]
    have := findMatch_bounds hm
    simp only [List.length_take, List.length_drop]
    omega

/-- The cumulative offset never decreases across a `Lex` call. -/
theorem Lex_pos_mono (l : EskipLex) : l.lastPosition ≤ l.Lex.2.lastPosition := by
  rcases Lex_char l with ⟨_, hL⟩ | ⟨_, _, hL⟩ | ⟨n, tk, txt, _, _, hL⟩
  · rw [hL]
  · rw [hL]; simp [EskipLex.Error]
  · rw [hL]; simp

/-- A successful token emission strictly shrinks the remaining input. -/
theorem Lex_tok_dec (l : EskipLex) {t : TokenKind} {s : List Char}
    (h : l.Lex.1 = .tok t s) : l.Lex.2.code.length < l.code.length := by
  rcases Lex_char l with ⟨_, hL⟩ | ⟨_, _, hL⟩ | ⟨n, tk, txt, h0, hm, hL⟩
  · rw [hL] at h; cases h
  · rw [hL] at h; cases h
  · rw [hL]
    have hb := findMatch_bounds hm
    have hpos : 0 < l.code.length := by
      cases hc : l.code with
      | nil => exact absurd hc h0
      | cons a u => simp [hc]
    simp only [List.length_drop]
    omega

/-- The positional invariant of reachable states: consumed offset, the
pending raw match and the remaining input always partition the original
input length. -/
theorem Reach_sum {input : List Char} {l : EskipLex} (h : Reach input l) :
    l.lastPosition + l.lastRaw.length + l.code.length = input.length := by
  induction h with
  | init => simp [newLexer]
  | step _ ih => rw [Lex_sum]; exact ih

/-! ## Claim theorems -/

/-- C1: the claim says that an input consisting solely of whitespace or
line comments makes the first `Lex` call return end-of-stream with no
recorded error.  The code contradicts this intent of its own skip
wrapper: the composite pattern requires one token fragment to match, so a
whitespace-only input (here a single space) records an invalid-token
error, and a comment-only input (here the text `// c`) is partly captured
by the regexp-literal fragment, emitting a spurious empty REGEXP_LITERAL
token followed by a SYMBOL token from inside the comment. -/
theorem skipOnly_input_result :
    (tokenize (" ")).1 = [] ∧
    (tokenize (" ")).2.err
      = some ("parse failed after token , position 0: invalid token") ∧
    (tokenize ("// c")).1
      = [(.regexpliteral, ['/', '/']), (.symbol, ['c'])] ∧
    (tokenize ("// c")).2.err = none := by
  decide

/-- Sanity check of the embedding on the specification example: the input
`a && b` scans to SYMBOL `a`, AND, SYMBOL `b` and then end-of-stream with
no recorded error. -/
theorem tokenize_example_and :
    (tokenize ("a && b")).1
      = [(.symbol, ['a']), (.and, ['&', '&']), (.symbol, ['b'])] ∧
    (tokenize ("a && b")).2.err = none := by
  decide

/-- C3 counterexample: the claimed formula — 3 reserved skip-wrapper
groups, plus the internal capture-group counts of the earlier
definitions, plus 1 for the own top-level group — does not reproduce the
indices assigned by `newLexer` (the very first definition already gets
index 3, not 3 + 0 + 1). -/
theorem matchIndex_claim_cex :
    ¬ (∀ i, i < tokenRxs.length →
        matchIndexes.get? i = some (initialCaptureGroups + sumEarlierCGs i + 1)) := by
  decide

/-- C3 (amended): the absolute capture-group index assigned to each token
definition equals the 3 reserved skip-wrapper groups, plus one top-level
group for every earlier definition, plus the internal capture-group
counts of the earlier definitions; the own top-level group of the
definition then carries exactly this index. -/
theorem matchIndex_assignment :
    ∀ i, i < tokenRxs.length →
      matchIndexes.get? i = some (initialCaptureGroups + i + sumEarlierCGs i) := by
  decide

/-- Witness for `matchIndex_assignment` at the first table entry. -/
theorem matchIndex_assignment_witness :
    0 < tokenRxs.length ∧
      matchIndexes.get? 0 = some (initialCaptureGroups + 0 + sumEarlierCGs 0) :=
  ⟨by decide, matchIndex_assignment 0 (by decide)⟩

/-- C4: `unescape` is a single left-to-right pass in which an escape
character followed by an allowed character emits that character alone, an
escape character followed by a disallowed character emits both characters
unchanged, an unescaped ordinary character is copied, and a trailing
escape character is dropped silently. -/
theorem unescape_spec :
    (∀ (c : Char) (rest chars : List Char), c ∈ chars →
        unescape ('\\' :: c :: rest) chars = c :: unescape rest chars) ∧
    (∀ (c : Char) (rest chars : List Char), c ∉ chars →
        unescape ('\\' :: c :: rest) chars = '\\' :: c :: unescape rest chars) ∧
    (∀ (c : Char) (rest chars : List Char), c ≠ '\\' →
        unescape (c :: rest) chars = c :: unescape rest chars) ∧
    (∀ chars : List Char, unescape ['\\'] chars = []) := by
  refine ⟨?_, ?_, ?_, ?_⟩
  · intro c rest chars hc
    have h1 : chars.contains c = true := List.elem_eq_true_of_mem hc
    simp [unescape, unescapeGo, h1]
    exact hc
  · intro c rest chars hc
    have h1 : chars.contains c = false := by
      cases h : chars.contains c
      · rfl
      · exact absurd (List.mem_of_elem_eq_true h) hc
    simp [unescape, unescapeGo, h1]
    exact hc
  · intro c rest chars hc
    simp [unescape, unescapeGo, hc]
  · intro chars
    simp [unescape, unescapeGo]

/-- Witness for `unescape_spec` at concrete inputs: an allowed escape, a
disallowed escape, an ordinary character and a trailing escape. -/
theorem unescape_spec_witness :
    unescape ['\\', '"', 'x'] ['\\', '"'] = '"' :: unescape ['x'] ['\\', '"'] ∧
    unescape ['\\', 'n'] ['/'] = '\\' :: 'n' :: unescape [] ['/'] ∧
    unescape ['a', 'b'] [] = 'a' :: unescape ['b'] [] ∧
    unescape ['\\'] ['/'] = [] :=
  ⟨unescape_spec.1 '"' ['x'] ['\\', '"'] (by decide),
   unescape_spec.2.1 'n' [] ['/'] (by decide),
   unescape_spec.2.2.1 'a' ['b'] [] (by decide),
   unescape_spec.2.2.2 ['/']⟩

/-- C5 counterexample: the input `5.` does not tokenize cleanly to a
single NUMBER token — the number pattern requires a digit after the dot,
so the match stops at `5` and the leftover dot records a lexical
error. -/
theorem number_five_dot_cex : ¬ (tokenize ("5.")).2.err = none := by
  decide

/-- C5 (amended): `12.5` and `.5` each tokenize to a single NUMBER token
with exact values 12.5 and 0.5 and no recorded error; `5.` tokenizes to a
NUMBER token with value 5 for the text `5`, followed by a recorded
invalid-token error at position 1 for the leftover dot.  Number
conversion itself is total (the source discards the impossible
`ParseFloat` error). -/
theorem number_tokens :
    (tokenize ("12.5")).1 = [(.number, ("12.5").toList)] ∧
    (tokenize ("12.5")).2.err = none ∧
    convertNumber (("12.5").toList) = 25 / 2 ∧
    (tokenize (".5")).1 = [(.number, (".5").toList)] ∧
    (tokenize (".5")).2.err = none ∧
    convertNumber ((".5").toList) = 1 / 2 ∧
    (tokenize ("5.")).1 = [(.number, ['5'])] ∧
    (tokenize ("5.")).2.err
      = some ("parse failed after token 5, position 1: invalid token") ∧
    convertNumber ['5'] = 5 := by
  refine ⟨by decide, by decide, ?_, by decide, by decide, ?_, by decide, by decide, ?_⟩
  · simp +decide [convertNumber, digitsVal, isDigitB, List.takeWhile, List.dropWhile,
      List.foldl, List.foldr]
    norm_num
  · simp +decide [convertNumber, digitsVal, isDigitB, List.takeWhile, List.dropWhile,
      List.foldl, List.foldr]
    norm_num
  · simp +decide [convertNumber, digitsVal, isDigitB, List.takeWhile, List.dropWhile,
      List.foldl, List.foldr]

/-- C6: `convertString` strips the surrounding delimiters; a double-quoted
literal is unescaped with the allowed set of backslash and double quote,
while a backtick literal passes backslash sequences through verbatim.  In
particular the matched text `"hello \"world\""` yields the value
`hello "world"`, and the whole input is one STRING token. -/
theorem convertString_spec :
    (∀ s : List Char, convertString ('"' :: s ++ ['"']) = unescape s ['\\', '"']) ∧
    (∀ s : List Char, convertString ('`' :: s ++ ['`']) = s) ∧
    (tokenize ("\"hello \\\"world\\\"\"")).1
      = [(.stringliteral, ("\"hello \\\"world\\\"\"").toList)] ∧
    (tokenize ("\"hello \\\"world\\\"\"")).2.err = none ∧
    convertString (("\"hello \\\"world\\\"\"").toList) = ("hello \"world\"").toList := by
  refine ⟨?_, ?_, by decide, by decide, by decide⟩
  · intro s
    simp [convertString, List.dropLast_concat]
  · intro s
    simp [convertString, List.dropLast_concat]

/-- C7: `convertRegexp` strips the surrounding slashes and unescapes with
the allowed set containing only the forward slash; in particular the
input `/a\/b/` is one REGEXP_LITERAL token whose converted value is
`a/b`. -/
theorem convertRegexp_spec :
    (∀ s : List Char, convertRegexp ('/' :: s ++ ['/']) = unescape s ['/']) ∧
    (tokenize ("/a\\/b/")).1 = [(.regexpliteral, ("/a\\/b/").toList)] ∧
    (tokenize ("/a\\/b/")).2.err = none ∧
    convertRegexp (("/a\\/b/").toList) = ['a', '/', 'b'] := by
  refine ⟨?_, by decide, by decide, by decide⟩
  intro s
  simp [convertRegexp, List.dropLast_concat]

/-- C8: a lexical failure records a diagnostic of exactly the shape
`parse failed after token <lastToken>, position <offset>: <message>`, and
on the input `@` the first `Lex` call emits no token, signals
end-of-stream and records that diagnostic with an empty last token and
offset 0. -/
theorem error_format_spec :
    (∀ (l : EskipLex) (msg : String),
        (l.Error msg).err = some ("parse failed after token " ++ String.mk l.lastToken ++
          ", position " ++ toString l.lastPosition ++ ": " ++ msg)) ∧
    (newLexer (("@").toList)).Lex
      = (.eof, { newLexer (("@").toList) with
          err := some ("parse failed after token , position 0: invalid token") }) := by
  exact ⟨fun l msg => rfl, by decide⟩

/-- C2: for every reachable state of a scan over `input`, the cumulative
offset, the pending raw match and the remaining input partition the
original length (so the sum of consumed lengths never exceeds it), the
offset never decreases across a `Lex` call, and every emitted token
strictly shrinks the remaining input. -/
theorem lex_progress (input : List Char) (l : EskipLex) (h : Reach input l) :
    l.lastPosition + l.lastRaw.length + l.code.length = input.length ∧
    l.lastPosition + l.lastRaw.length ≤ input.length ∧
    l.lastPosition ≤ l.Lex.2.lastPosition ∧
    (∀ t s, l.Lex.1 = .tok t s → l.Lex.2.code.length < l.code.length) := by
  have hs := Reach_sum h
  exact ⟨hs, by omega, Lex_pos_mono l, fun t s ht => Lex_tok_dec l ht⟩

/-- Witness for `lex_progress` at the fresh lexer over the input `a`,
whose first call emits the SYMBOL token `a`. -/
theorem lex_progress_witness :
    (newLexer (("a").toList)).lastPosition + (newLexer (("a").toList)).lastRaw.length
        + (newLexer (("a").toList)).code.length = ("a").toList.length ∧
    (newLexer (("a").toList)).lastPosition + (newLexer (("a").toList)).lastRaw.length
        ≤ ("a").toList.length ∧
    (newLexer (("a").toList)).lastPosition
        ≤ (newLexer (("a").toList)).Lex.2.lastPosition ∧
    (newLexer (("a").toList)).Lex.2.code.length
        < (newLexer (("a").toList)).code.length :=
  have h := lex_progress (("a").toList) (newLexer (("a").toList)) Reach.init
  ⟨h.1, h.2.1, h.2.2.1, h.2.2.2 .symbol ['a'] (by decide)⟩

/-- C10: when no pattern matches the (non-empty) remaining input, `Lex`
signals end-of-stream, records an error, and leaves the remaining input
in place; the successor state is a fixed point of `Lex`, so every
subsequent call signals end-of-stream again, changes neither the
remaining input nor the offset, and overwrites the error with an
identical message. -/
theorem lex_error_steady (l : EskipLex) (h1 : l.code ≠ [])
    (h2 : findMatch l.code = none) :
    l.Lex.1 = .eof ∧
    l.Lex.2.code = l.code ∧
    l.Lex.2.err ≠ none ∧
    l.Lex.2.Lex = (.eof, l.Lex.2) := by
  rcases Lex_char l with ⟨he, _⟩ | ⟨_, _, hL⟩ | ⟨n, tk, txt, _, hm, _⟩
  · exact absurd he h1
  · refine ⟨by rw [hL], by rw [hL]; rfl, ?_, ?_⟩
    · rw [hL]
      simp [EskipLex.Error]
    · rw [hL]
      rcases Lex_char (({ l with
          lastPosition := l.lastPosition + l.lastRaw.length,
          lastRaw := [] } : EskipLex).Error ("invalid token")) with
        ⟨he2, _⟩ | ⟨_, _, hL2⟩ | ⟨n, tk, txt, _, hm2, _⟩
      · exact absurd he2 h1
      · rw [hL2]
        rfl
      · have hmc : findMatch l.code = some (n, tk, txt) := hm2
        rw [h2] at hmc
        simp at hmc
  · rw [h2] at hm
    simp at hm

/-- Witness for `lex_error_steady` at the fresh lexer over the input `@`,
on which no token pattern matches. -/
theorem lex_error_steady_witness :
    (newLexer (("@").toList)).Lex.1 = .eof ∧
    (newLexer (("@").toList)).Lex.2.code = (newLexer (("@").toList)).code ∧
    (newLexer (("@").toList)).Lex.2.err ≠ none ∧
    (newLexer (("@").toList)).Lex.2.Lex = (.eof, (newLexer (("@").toList)).Lex.2) :=
  lex_error_steady (newLexer (("@").toList)) (by decide) (by decide)

end SkipperEskip

namespace SkipperChain

/-- Unfolding of the request loop from an unserved context with an empty
state bag: if some sub-filter serves, the loop stops at the first serving
position `k` (relative to the running counter `i`), records `i + k` in
the state bag, and the request hooks of exactly positions `i … i + k`
have run. -/
theorem chainRequestGo_spec : ∀ (fs : List Bool) (i : Nat), true ∈ fs →
    ∃ k, k < fs.length ∧
      chainRequestGo fs i ⟨false, none⟩
        = (⟨true, some (i + k)⟩, List.range' i (k + 1)) := by
  intro fs
  induction fs with
  | nil => intro i h; simp at h
  | cons f fs ih =>
      intro i h
      cases f with
      | true =>
          refine ⟨0, Nat.succ_pos _, ?_⟩
          simp [chainRequestGo, List.range']
      | false =>
          have h2 : true ∈ fs := by simpa using h
          obtain ⟨k, hk, hgo⟩ := ih (i + 1) h2
          refine ⟨k + 1, by simpa using Nat.succ_lt_succ hk, ?_⟩
          simp only [chainRequestGo, Bool.or_false]
          simp only [if_neg (by simp :
            ¬ (({ served := false, bag := none : FilterCtx} : FilterCtx).served = true))]
          rw [hgo]
          have hik : i + (k + 1) = (i + 1) + k := by omega
          simp [List.range', hik]

/-- C9 counterexample: in a one-filter chain whose only filter serves the
response during the request phase, that filter has run its request hook
and is recorded in the state bag, yet the response phase truncates the
list with `[:index]` and runs no response hook at all — not the same set
of positions the request phase executed. -/
theorem chain_response_cex :
    chainResponse [true] (chainRequest [true] ⟨false, none⟩).1
      ≠ (chainRequest [true] ⟨false, none⟩).2 := by
  decide

/-- C9 (amended): when a sub-filter serves the response during the request
phase, its position is recorded in the state bag, the request hooks of
exactly positions `0 … k` have run (`k` the recorded position), and the
response phase runs the response hooks of exactly the positions strictly
before the recorded one — all request-executed filters except the serving
one itself. -/
theorem chain_response_spec (fs : List Bool) (h : true ∈ fs) :
    (∃ k, (chainRequest fs ⟨false, none⟩).1.bag = some k ∧
        (chainRequest fs ⟨false, none⟩).2 = List.range (k + 1)) ∧
    chainResponse fs (chainRequest fs ⟨false, none⟩).1
      = (chainRequest fs ⟨false, none⟩).2.dropLast := by
  obtain ⟨k, hk, hgo⟩ := chainRequestGo_spec fs 0 h
  have hreq : chainRequest fs ⟨false, none⟩ = (⟨true, some k⟩, List.range (k + 1)) := by
    rw [chainRequest, hgo]
    simp [List.range_eq_range']
  refine ⟨⟨k, by rw [hreq], by rw [hreq]⟩, ?_⟩
  rw [hreq]
  show chainResponse fs ⟨true, some k⟩ = (List.range (k + 1)).dropLast
  simp only [chainResponse]
  rw [List.length_take, Nat.min_eq_left (Nat.le_of_lt hk), List.range_succ,
    List.dropLast_concat]

/-- Witness for `chain_response_spec` on the two-filter chain whose first
sub-filter serves. -/
theorem chain_response_spec_witness :
    (chainRequest [true, false] ⟨false, none⟩).1.bag = some 0 ∧
    (chainRequest [true, false] ⟨false, none⟩).2 = List.range 1 ∧
    chainResponse [true, false] (chainRequest [true, false] ⟨false, none⟩).1
      = (chainRequest [true, false] ⟨false, none⟩).2.dropLast :=
  ⟨by decide, by decide, (chain_response_spec [true, false] (by decide)).2⟩

end SkipperChain

